import Mathlib

/-!
Verification of the cssu expression language core: the dynamic value model,
the expression/condition parser (`src/parser.ts`), the evaluator
(`src/evaluator.ts`) and the route compiler (`src/compiler.ts`, whose source
is embedded in `docs/SYNTAX.md`).  JavaScript strings are modelled as
`List Char` wrapped in `String`, JavaScript numbers as `ℚ` (with `Option ℚ`
standing for a possibly non-finite coercion result: `none` models `NaN` or
an infinity), JavaScript objects as ordered association lists, and the
`better-sqlite3` executor as an abstract structure of fallible operations
returning `Except String`.
-/

namespace Cssu

/-! ## JavaScript-flavoured string primitives -/

/-- Whitespace test used by the model of JavaScript `String.prototype.trim`. -/
def isWs (c : Char) : Bool :=
  c = ' ' || c = '\t' || c = '\n' || c = '\r'

/-- Drop leading whitespace from a character list. -/
def trimLeftL (l : List Char) : List Char := l.dropWhile isWs

/-- Drop trailing whitespace from a character list. -/
def trimRightL (l : List Char) : List Char :=
  (l.reverse.dropWhile isWs).reverse

/-- Model of JavaScript `value.trim()`. -/
def trimJS (s : String) : String :=
  String.mk (trimRightL (trimLeftL s.toList))

/-- Model of JavaScript `value.startsWith(p)`. -/
def startsWithJS (s p : String) : Bool :=
  p.toList.isPrefixOf s.toList

/-- First index at which the pattern occurs as a sublist, if any
(model of JavaScript `String.prototype.indexOf` for found/not-found). -/
def idxOfSub : List Char → List Char → Option Nat
  | _, [] => none
  | pat, c :: cs =>
    if pat.isPrefixOf (c :: cs) then some 0
    else (idxOfSub pat cs).map (fun i => i + 1)

/-- Model of JavaScript `s.includes(p)` (true when `indexOf` is not -1;
an empty pattern is always included). -/
def includesJS (s p : String) : Bool :=
  p.toList = ([] : List Char) || (idxOfSub p.toList s.toList).isSome

/-- Model of JavaScript `s.toUpperCase()` restricted to ASCII letters. -/
def toUpperJS (s : String) : String :=
  String.mk (s.toList.map Char.toUpper)

/-- Model of JavaScript `s.toLowerCase()` restricted to ASCII letters. -/
def toLowerJS (s : String) : String :=
  String.mk (s.toList.map Char.toLower)

/-- Model of JavaScript `s.slice(a, b)` for `0 ≤ a ≤ b` (the only uses in
the parser). -/
def sliceJS (s : String) (a b : Nat) : String :=
  String.mk ((s.toList.drop a).take (b - a))

/-- Model of JavaScript `s.slice(a)` for `a ≥ 0`. -/
def sliceFromJS (s : String) (a : Nat) : String :=
  String.mk (s.toList.drop a)

/-- The single-quote character, written via its code point. -/
def squote : Char := Char.ofNat 39

/-- The double-quote character. -/
def dquote : Char := '"'

/-- Decimal digit run to a natural number. -/
def digitsToNat (ds : List Char) : Nat :=
  ds.foldl (fun a c => a * 10 + (c.toNat - 48)) 0

/-! ## The dynamic value model -/

/-- Runtime value of the expression language: the JavaScript values the
evaluator can produce.  `undefinedV` is the distinguished missing value
(JavaScript `undefined`); objects are ordered string-keyed field lists. -/
inductive Value where
  | null : Value
  | undefinedV : Value
  | bool (b : Bool) : Value
  | num (q : ℚ) : Value
  | str (s : String) : Value
  | arr (elems : List Value) : Value
  | obj (fields : List (String × Value)) : Value
deriving Repr

/-- Grammar test `^-?digits(.digits)?$` from `parseExpression`
(the numeric-literal regular expression in `src/parser.ts`). -/
def matchesNumber (l : List Char) : Bool :=
  let body := if l.head? = some '-' then l.tail else l
  let ds := body.takeWhile Char.isDigit
  let rest := body.dropWhile Char.isDigit
  !ds.isEmpty &&
    (rest.isEmpty ||
      (rest.head? = some '.' && !rest.tail.isEmpty && rest.tail.all Char.isDigit))

/-- Model of JavaScript `parseFloat` on texts accepted by `matchesNumber`:
the exact decimal value (sign, integer digits, optional fraction). -/
def parseFloatQ (l : List Char) : ℚ :=
  let sgn : ℚ := if l.head? = some '-' then -1 else 1
  let body := if l.head? = some '-' then l.tail else l
  let ds := body.takeWhile Char.isDigit
  let rest := body.dropWhile Char.isDigit
  let ip : ℚ := (digitsToNat ds : ℚ)
  let fds := rest.tail.takeWhile Char.isDigit
  let fp : ℚ :=
    if rest.head? = some '.' then (digitsToNat fds : ℚ) / ((10 : ℚ) ^ fds.length)
    else 0
  sgn * (ip + fp)

/-- Model of the host `Number(string)` coercion over the finite decimal
grammar: optional sign, digits with an optional fractional part, consumed
in full after trimming.  `none` models a non-finite result (`NaN`, or the
infinities, which `ℚ` cannot represent). -/
def numFromChars (l : List Char) : Option ℚ :=
  let t := trimRightL (trimLeftL l)
  if t.isEmpty then some 0
  else
    let (sgn, body) : ℚ × List Char := match t with
      | '-' :: r => (-1, r)
      | '+' :: r => (1, r)
      | r => (1, r)
    let ds := body.takeWhile Char.isDigit
    let rest := body.drop ds.length
    match rest with
    | [] => if ds.isEmpty then none else some (sgn * (digitsToNat ds : ℚ))
    | '.' :: fs =>
      let fds := fs.takeWhile Char.isDigit
      let rest2 := fs.drop fds.length
      if !rest2.isEmpty then none
      else if ds.isEmpty && fds.isEmpty then none
      else some (sgn * ((digitsToNat ds : ℚ) +
        (digitsToNat fds : ℚ) / ((10 : ℚ) ^ fds.length)))
    | _ => none

/-- Decimal rendering of an integer. -/
def intToString (i : ℤ) : String := toString i

/-- Fractional digits of a rational in `[0,1)`, up to the given fuel. -/
def fracDigits : Nat → ℚ → List Char
  | 0, _ => []
  | n + 1, r =>
    if r = 0 then []
    else
      let r10 := r * 10
      let d := ⌊r10⌋
      Char.ofNat (48 + d.toNat) :: fracDigits n (r10 - (d : ℚ))

/-- Decimal rendering of a rational (model of JavaScript number-to-string
for the values producible here). -/
def ratToString (q : ℚ) : String :=
  if q.den = 1 then intToString q.num
  else
    let sgn := if q < 0 then ("-") else ("")
    let a := |q|
    let ip := ⌊a⌋
    sgn ++ intToString ip ++ "." ++ String.mk (fracDigits 20 (a - (ip : ℚ)))

mutual

/-- Model of the host `String(value)` coercion. -/
def jsToString : Value → String
  | .null => "null"
  | .undefinedV => "undefined"
  | .bool b => if b then ("true") else ("false")
  | .num q => ratToString q
  | .str s => s
  | .arr l => joinComma l
  | .obj _ => "[object Object]"

/-- Array `toString`: elements joined with commas, `null`/`undefined`
elements rendered as empty (model of `Array.prototype.join`). -/
def joinComma : List Value → String
  | [] => ""
  | [v] => elemToString v
  | v :: vs => elemToString v ++ "," ++ joinComma vs

/-- Element stringification used by `Array.prototype.join`. -/
def elemToString : Value → String
  | .null => ""
  | .undefinedV => ""
  | v => jsToString v

end

/-- Concatenation of the element strings (model of `array.join('')`,
 used by the `concat` evaluator case). -/
def joinEmpty (l : List Value) : String :=
  l.foldl (fun acc v => acc ++ elemToString v) ""

/-- Model of the host `Number(value)` coercion; `none` is a non-finite
result. -/
def jsToNumber : Value → Option ℚ
  | .num q => some q
  | .bool b => some (if b then 1 else 0)
  | .null => some 0
  | .undefinedV => none
  | .str s => numFromChars s.toList
  | .arr l => numFromChars (jsToString (.arr l)).toList
  | .obj _ => none

end Cssu

namespace Cssu

/-! ## Expression and condition trees (`src/types.ts`) -/

/-- Comparand of a relational condition: `string | number` in
`src/types.ts`. -/
inductive CompVal where
  | s (v : String) : CompVal
  | n (v : ℚ) : CompVal
deriving Repr, DecidableEq

/-- Condition tree (`Condition` in `src/types.ts`). -/
inductive Condition where
  | truthy (varName : String) : Condition
  | equals (varName : String) (value : CompVal) : Condition
  | notEquals (varName : String) (value : CompVal) : Condition
  | greaterThan (varName : String) (value : CompVal) : Condition
  | lessThan (varName : String) (value : CompVal) : Condition
  | greaterOrEqual (varName : String) (value : CompVal) : Condition
  | lessOrEqual (varName : String) (value : CompVal) : Condition
  | and (conditions : List Condition) : Condition
  | or (conditions : List Condition) : Condition
  | not (condition : Condition) : Condition
deriving Repr

/-- Expression tree (`Expression` in `src/types.ts`).  An `if` branch is a
condition/value pair (`IfBranch`). -/
inductive Expression where
  | literal (value : Value) : Expression
  | var (name : String) : Expression
  | param (paramName : String) : Expression
  | queryRef (paramName : String) : Expression
  | body (fieldName : String) : Expression
  | header (headerName : String) : Expression
  | sql (query : String) (args : List Expression) : Expression
  | ifE (branches : List (Condition × Expression)) (elseValue : Option Expression) : Expression
  | json (value : Value) : Expression
  | html (value : String) : Expression
  | concat (parts : List Expression) : Expression
deriving Repr

/-! ## Request context (`RequestContext` in `src/types.ts`) -/

/-- Lookup in a JavaScript-object-like association list: the first entry
wins (maps built here never rely on duplicate keys). -/
def assocFind (m : List (String × α)) (k : String) : Option α :=
  (m.find? (fun p => p.1 = k)).map (fun p => p.2)

/-- Per-request context: four read-only request maps plus the mutable
variable map. -/
structure RequestContext where
  params : List (String × String)
  query : List (String × String)
  body : List (String × Value)
  headers : List (String × String)
  vars : List (String × Value)
deriving Repr

/-- Variable-map read: a missing binding is JavaScript `undefined`. -/
def RequestContext.getVar (ctx : RequestContext) (n : String) : Value :=
  match assocFind ctx.vars n with
  | some v => v
  | none => .undefinedV

/-- Write `ctx.variables[name] = v` (assignment shadows any older entry). -/
def setVar (ctx : RequestContext) (n : String) (v : Value) : RequestContext :=
  { ctx with vars := (n, v) :: ctx.vars }

/-- String-map read returning `undefined` when the key is absent. -/
def getStrMap (m : List (String × String)) (k : String) : Value :=
  match assocFind m k with
  | some s => .str s
  | none => .undefinedV

/-- Body read (`ctx.body[field]`). -/
def getBodyMap (m : List (String × Value)) (k : String) : Value :=
  match assocFind m k with
  | some v => v
  | none => .undefinedV

/-! ## The external query executor (`better-sqlite3`, per spec section 6) -/

/-- Result of `Statement.run`: last inserted row id and affected-row
count. -/
structure RunInfo where
  lastInsertRowid : ℤ
  changes : ℤ
deriving Repr, DecidableEq

/-- A prepared statement: each operation may throw, modelled as
`Except String`.  Rows are objects (ordered field lists). -/
structure Stmt where
  get : List Value → Except String (Option (List (String × Value)))
  all : List Value → Except String (List (List (String × Value)))
  run : List Value → Except String RunInfo

/-- A database connection: `prepare` may itself throw. -/
structure DbConn where
  prepare : String → Except String Stmt

/-- Value form of a `RunInfo` for the generic write path, which returns the
executor's report verbatim. -/
def runInfoValue (r : RunInfo) : Value :=
  .obj [("changes", .num (r.changes : ℚ)), ("lastInsertRowid", .num (r.lastInsertRowid : ℚ))]

/-- Statement-dispatch step of `evaluateSql` inside the `try` block:
`prepare`, keyword sniffing, and the chosen fetch/run call, with any throw
surfacing as `Except.error`. -/
def sqlExec (conn : DbConn) (query : String) (nargs : Nat) (vals : List Value) :
    Except String Value := do
  let stmt ← conn.prepare query
  if startsWithJS (toUpperJS (trimJS query)) "SELECT" then
    if includesJS query ("LIMIT 1") || nargs == 1 then
      let r ← stmt.get vals
      match r with
      | some row => pure (.obj row)
      | none => pure .null
    else
      let rows ← stmt.all vals
      pure (.arr (rows.map Value.obj))
  else if startsWithJS (toUpperJS (trimJS query)) "INSERT" then
    let r ← stmt.run vals
    pure (.obj [("id", .num (r.lastInsertRowid : ℚ)), ("changes", .num (r.changes : ℚ))])
  else if startsWithJS (toUpperJS (trimJS query)) "UPDATE" ||
          startsWithJS (toUpperJS (trimJS query)) "DELETE" then
    let r ← stmt.run vals
    pure (.obj [("changes", .num (r.changes : ℚ))])
  else
    let r ← stmt.run vals
    pure (runInfoValue r)

/-- The evaluated value of a caught execution failure:
`{ error: message }`. -/
def errObj (m : String) : Value := .obj [("error", .str m)]

/-- Strict equality `value === comparand` for a runtime value against a
`string | number` comparand. -/
def strictEq : Value → CompVal → Bool
  | .str a, .s b => a = b
  | .num a, .n b => a = b
  | _, _ => false

mutual

/-- `evaluateCondition(condition, ctx)` from `src/evaluator.ts`.  The
ordered comparisons require the variable to hold a number and the parsed
comparand to be numeric; any other combination is false (a string
comparand compared against a number coerces to `NaN` in the source). -/
def evaluateCondition : Condition → RequestContext → Bool
  | .truthy n, ctx =>
    match ctx.getVar n with
    | .null => false
    | .undefinedV => false
    | .bool b => b
    | .num q => q != 0
    | .str s => s.toList.length > 0
    | .arr l => l.length > 0
    | .obj kvs => kvs.length > 0
  | .equals n v, ctx => strictEq (ctx.getVar n) v
  | .notEquals n v, ctx => !strictEq (ctx.getVar n) v
  | .greaterThan n v, ctx =>
    match ctx.getVar n, v with
    | .num a, .n b => a > b
    | _, _ => false
  | .lessThan n v, ctx =>
    match ctx.getVar n, v with
    | .num a, .n b => a < b
    | _, _ => false
  | .greaterOrEqual n v, ctx =>
    match ctx.getVar n, v with
    | .num a, .n b => a ≥ b
    | _, _ => false
  | .lessOrEqual n v, ctx =>
    match ctx.getVar n, v with
    | .num a, .n b => a ≤ b
    | _, _ => false
  | .and cs, ctx => condAll cs ctx
  | .or cs, ctx => condAny cs ctx
  | .not c, ctx => !evaluateCondition c ctx

/-- `conditions.every(...)`. -/
def condAll : List Condition → RequestContext → Bool
  | [], _ => true
  | c :: cs, ctx => evaluateCondition c ctx && condAll cs ctx

/-- `conditions.some(...)`. -/
def condAny : List Condition → RequestContext → Bool
  | [], _ => false
  | c :: cs, ctx => evaluateCondition c ctx || condAny cs ctx

end

/-! ## The evaluator (`src/evaluator.ts`) -/

mutual

/-- `evaluateExpression(expr, ctx)` from `src/evaluator.ts`; `db` is the
module-level database handle (`none` when not configured). -/
def evaluateExpression (db : Option DbConn) : Expression → RequestContext → Value
  | .literal v, _ => v
  | .var n, ctx => ctx.getVar n
  | .param n, ctx => getStrMap ctx.params n
  | .queryRef n, ctx => getStrMap ctx.query n
  | .body n, ctx => getBodyMap ctx.body n
  | .header n, ctx => getStrMap ctx.headers (toLowerJS n)
  | .sql q args, ctx => evaluateSql db q args ctx
  | .ifE branches elseValue, ctx => evaluateIf db branches elseValue ctx
  | .json v, _ => v
  | .html s, _ => .str s
  | .concat parts, ctx => .str (joinEmpty (evalArgs db parts ctx))
termination_by e _ => (sizeOf e, 0)

/-- Left-to-right evaluation of an expression list (`args.map(...)`,
`parts.map(...)`). -/
def evalArgs (db : Option DbConn) : List Expression → RequestContext → List Value
  | [], _ => []
  | e :: es, ctx => evaluateExpression db e ctx :: evalArgs db es ctx
termination_by l _ => (sizeOf l, 0)

/-- `evaluateSql(query, args, ctx)`: unconfigured-database short circuit,
argument evaluation, then the `try`/`catch` around `sqlExec`. -/
def evaluateSql (db : Option DbConn) (query : String) (args : List Expression)
    (ctx : RequestContext) : Value :=
  match db with
  | none => errObj ("Database not configured")
  | some conn =>
    let evaluatedArgs := evalArgs db args ctx
    match sqlExec conn query args.length evaluatedArgs with
    | .ok v => v
    | .error m => errObj m
termination_by (sizeOf args, 1)

/-- `evaluateIf(branches, elseValue, ctx)`: first branch whose condition
holds wins; otherwise the else expression, otherwise `null`. -/
def evaluateIf (db : Option DbConn) : List (Condition × Expression) →
    Option Expression → RequestContext → Value
  | [], none, _ => .null
  | [], some e, ctx => evaluateExpression db e ctx
  | (c, v) :: bs, elseValue, ctx =>
    if evaluateCondition c ctx then evaluateExpression db v ctx
    else evaluateIf db bs elseValue ctx
termination_by branches elseValue _ => (sizeOf branches + sizeOf elseValue, 1)

end


end Cssu

namespace Cssu

/-! ## Balanced-content extraction (`extractFunctionContent`) -/

/-- Offset of the parenthesis that brings the depth counter to zero, if the
scan ever does (the loop body of `extractFunctionContent`): depth rises on
`(`, falls on `)`, and no quote handling is performed. -/
def closeIdx : List Char → Nat → Option Nat
  | [], _ => none
  | c :: cs, depth =>
    if c = '(' then (closeIdx cs (depth + 1)).map (fun i => i + 1)
    else if c = ')' then
      if depth = 1 then some 0
      else (closeIdx cs (depth - 1)).map (fun i => i + 1)
    else (closeIdx cs depth).map (fun i => i + 1)

/-- `extractFunctionContent(value, funcName)` from `src/parser.ts`: slice
between the first `funcName(` and the parenthesis that balances it, by
depth counting alone.  When `funcName(` is absent, JavaScript
`indexOf` yields -1 and `start` degrades to `funcName.length`; when the
depth never reaches zero, `end` stays at `start` and the slice is empty. -/
def extractFunctionContent (value funcName : String) : String :=
  let v := value.toList
  let start := match idxOfSub (funcName ++ "(").toList v with
    | some i => i + funcName.length + 1
    | none => funcName.length
  let rest := v.drop start
  match closeIdx rest 1 with
  | some len => String.mk (rest.take len)
  | none => ""

/-- `parseStringValue(value)`: trim, then strip one leading and one
trailing quote character independently (the `/^["']|["']$/g` replace). -/
def parseStringValue (value : String) : String :=
  let t := (trimJS value).toList
  let t1 := match t with
    | c :: rest => if c = dquote || c = squote then rest else t
    | [] => []
  let t2 := match t1.getLast? with
    | some c => if c = dquote || c = squote then t1.dropLast else t1
    | none => t1
  String.mk t2

/-! ## Quote-aware depth-0 scanners -/

/-- Scanner for `parseFunctionArgs`: split on commas at depth 0, where a
quoted run (toggled by the in-string flag and the opening quote character)
suppresses depth tracking and separators.  Chunks are trimmed and empty
chunks dropped, exactly as the source guards each push with
`current.trim()`. -/
def argScan : List Char → List Char → Int → Bool → Char → List String → List String
  | [], current, _, _, _, parts =>
    if !(trimJS (String.mk current)).toList.isEmpty
    then parts ++ [trimJS (String.mk current)] else parts
  | ch :: cs, current, depth, inString, stringChar, parts =>
    if (ch = dquote || ch = squote) && !inString then
      argScan cs (current ++ [ch]) depth true ch parts
    else if ch = stringChar && inString then
      argScan cs (current ++ [ch]) depth false stringChar parts
    else if !inString then
      if ch = '(' then argScan cs (current ++ [ch]) (depth + 1) inString stringChar parts
      else if ch = ')' then argScan cs (current ++ [ch]) (depth - 1) inString stringChar parts
      else if ch = ',' && depth = 0 then
        let parts2 :=
          if !(trimJS (String.mk current)).toList.isEmpty
          then parts ++ [trimJS (String.mk current)] else parts
        argScan cs [] depth inString stringChar parts2
      else argScan cs (current ++ [ch]) depth inString stringChar parts
    else argScan cs (current ++ [ch]) depth inString stringChar parts

/-- The argument-chunk split of `parseFunctionArgs` (the scan state never
depends on the recursive parses, so splitting first is equivalent). -/
def splitArgChunks (argsStr : String) : List String :=
  argScan argsStr.toList [] 0 false (Char.ofNat 0) []

/-- Scanner for `splitIfBranches`: split on semicolons at depth 0,
quote-aware; intermediate parts are pushed unconditionally and untrimmed,
the final part only when its trim is nonempty. -/
def branchScan : List Char → List Char → Int → Bool → Char → List String → List String
  | [], current, _, _, _, parts =>
    if !(trimJS (String.mk current)).toList.isEmpty
    then parts ++ [String.mk current] else parts
  | ch :: cs, current, depth, inString, stringChar, parts =>
    if (ch = dquote || ch = squote) && !inString then
      branchScan cs (current ++ [ch]) depth true ch parts
    else if ch = stringChar && inString then
      branchScan cs (current ++ [ch]) depth false stringChar parts
    else if !inString then
      if ch = '(' then branchScan cs (current ++ [ch]) (depth + 1) inString stringChar parts
      else if ch = ')' then branchScan cs (current ++ [ch]) (depth - 1) inString stringChar parts
      else if ch = ';' && depth = 0 then
        branchScan cs [] depth inString stringChar (parts ++ [String.mk current])
      else branchScan cs (current ++ [ch]) depth inString stringChar parts
    else branchScan cs (current ++ [ch]) depth inString stringChar parts

/-- `splitIfBranches(str)` from `src/parser.ts`. -/
def splitIfBranches (str : String) : List String :=
  branchScan str.toList [] 0 false (Char.ofNat 0) []

/-- Scanner for `findColonInBranch`: index of the first colon at depth 0,
quote-aware. -/
def colonScan : List Char → Nat → Int → Bool → Char → Option Nat
  | [], _, _, _, _ => none
  | ch :: cs, i, depth, inString, stringChar =>
    if (ch = dquote || ch = squote) && !inString then
      colonScan cs (i + 1) depth true ch
    else if ch = stringChar && inString then
      colonScan cs (i + 1) depth false stringChar
    else if !inString then
      if ch = '(' then colonScan cs (i + 1) (depth + 1) inString stringChar
      else if ch = ')' then colonScan cs (i + 1) (depth - 1) inString stringChar
      else if ch = ':' && depth = 0 then some i
      else colonScan cs (i + 1) depth inString stringChar
    else colonScan cs (i + 1) depth inString stringChar

/-- `findColonInBranch(str)`; `none` models the source's -1. -/
def findColonInBranch (str : String) : Option Nat :=
  colonScan str.toList 0 0 false (Char.ofNat 0)

/-! ## The condition parser (`parseCondition`) -/

/-- Character class `[\w-]` of the relational regular expression. -/
def isWordDash (c : Char) : Bool :=
  c.isAlphanum || c = '_' || c = '-'

/-- Strip one leading double dash (the regex replace idiom of the source). -/
def stripDashes (s : String) : String :=
  match s.toList with
  | '-' :: '-' :: rest => String.mk rest
  | _ => s

/-- Strip one leading colon (the regex replace idiom of the source). -/
def stripColon (s : String) : String :=
  match s.toList with
  | ':' :: rest => String.mk rest
  | _ => s

/-- Operator alternation `(=|!=|>=|<=|>|<)` of the relational regular
expression, tried in source order (two-character operators are reachable
because the one-character ones have different first characters). -/
def opMatch : List Char → Option (String × List Char)
  | '=' :: r => some ("=", r)
  | '!' :: '=' :: r => some ("!=", r)
  | '>' :: '=' :: r => some (">=", r)
  | '<' :: '=' :: r => some ("<=", r)
  | '>' :: r => some (">", r)
  | '<' :: r => some ("<", r)
  | _ => none

/-- Model of the relational match
`^(--[\w-]+)\s*(=|!=|>=|<=|>|<)\s*(.+)$`: variable name, operator, and the
raw comparand group (which the caller then trims).  When everything after
the operator is whitespace, greedy backtracking leaves the last whitespace
character as the comparand group. -/
def compMatch (t : String) : Option (String × String × String) :=
  match t.toList with
  | '-' :: '-' :: rest =>
    let name := rest.takeWhile isWordDash
    if name.isEmpty then none
    else
      let afterWs := (rest.drop name.length).dropWhile isWs
      match opMatch afterWs with
      | none => none
      | some (op, rest2) =>
        if rest2.isEmpty then none
        else
          let rest3 := rest2.dropWhile isWs
          if rest3.isEmpty then
            some (String.mk name, op, String.mk [rest2.getLastD ' '])
          else some (String.mk name, op, String.mk rest3)
  | _ => none

/-- Model of the bare-variable match `^--([\w-]+)$`. -/
def varMatch (t : String) : Option String :=
  match t.toList with
  | '-' :: '-' :: rest =>
    if !rest.isEmpty && rest.all isWordDash then some (String.mk rest) else none
  | _ => none

/-- `parseCondition(str)` from `src/parser.ts`, with fuel for the
first-occurrence recursion on ` or `/` and `/`not ` (every recursive call
strictly shrinks the text, so `length + 1` fuel always suffices). -/
def parseCondition : Nat → String → Condition
  | 0, s => .truthy (stripDashes (trimJS s))
  | n + 1, s =>
    let t := trimJS s
    match idxOfSub (" or ").toList t.toList with
    | some i =>
      .or [parseCondition n (trimJS (sliceJS t 0 i)),
           parseCondition n (trimJS (sliceFromJS t (i + 4)))]
    | none =>
      match idxOfSub (" and ").toList t.toList with
      | some i =>
        .and [parseCondition n (trimJS (sliceJS t 0 i)),
              parseCondition n (trimJS (sliceFromJS t (i + 5)))]
      | none =>
        if startsWithJS t ("not ") then .not (parseCondition n (sliceFromJS t 4))
        else
          match compMatch t with
          | some (varName, op, valueStr) =>
            let vs := trimJS valueStr
            let value : CompVal := match numFromChars vs.toList with
              | some q => .n q
              | none => .s (parseStringValue vs)
            if op = "=" then .equals varName value
            else if op = "!=" then .notEquals varName value
            else if op = ">" then .greaterThan varName value
            else if op = "<" then .lessThan varName value
            else if op = ">=" then .greaterOrEqual varName value
            else .lessOrEqual varName value
          | none =>
            match varMatch t with
            | some name => .truthy name
            | none => .truthy (stripDashes t)

/-! ## The sql(...) statement match -/

/-- Tail of the sql regular expression after the closing quote of the
statement text: `\s*(?:,\s*(.+))?\s*\)$`.  Returns the argument group
(empty when the optional group is absent), or `none` when the tail does
not match from here. -/
def sqlTail (l : List Char) : Option String :=
  let w := l.dropWhile isWs
  match w with
  | [')'] => some ("")
  | ',' :: r =>
    match r.getLast? with
    | some ')' =>
      let core := r.dropLast
      if core.isEmpty then none
      else
        let pre := core.takeWhile isWs
        if pre.length = core.length then some (String.mk [core.getLastD ' '])
        else some (String.mk (core.drop pre.length))
    | _ => none
  | _ => none

/-- Lazy search for the closing quote of the statement text: the first
quote character (of either kind, per the `["']` class) preceded by a
nonempty text run whose tail lets the rest of the pattern match. -/
def sqlClose : List Char → List Char → Option (String × String)
  | _, [] => none
  | acc, c :: cs =>
    if (c = dquote || c = squote) && !acc.isEmpty then
      match sqlTail cs with
      | some args => some (String.mk acc, args)
      | none => sqlClose (acc ++ [c]) cs
    else sqlClose (acc ++ [c]) cs

/-- Model of the statement match
`^sql\s*\(\s*["'](.+?)["']\s*(?:,\s*(.+))?\s*\)$` (with the `/s` flag, so
the text may span lines): statement text and raw argument-list group. -/
def sqlMatch (value : String) : Option (String × String) :=
  match value.toList with
  | 's' :: 'q' :: 'l' :: rest =>
    match rest.dropWhile isWs with
    | '(' :: r2 =>
      match r2.dropWhile isWs with
      | c :: r4 =>
        if c = dquote || c = squote then sqlClose [] r4 else none
      | [] => none
    | _ => none
  | _ => none

/-! ## The expression parser (`parseExpression` and friends)

The source functions are mutually recursive on ever-smaller text
fragments.  Here the recursion is made structural on a `Nat` fuel carried
by `parseExpression` alone: each helper is a functional over the
lower-fuel parser `pe`, and the named wrappers below recover the source
call shapes.  `jp` abstracts the host `JSON.parse`: `some v` is a
successful strict decode, `none` a thrown `SyntaxError`. -/

/-- `parseFunctionArgs(argsStr)`: empty for blank input, else the
quote-aware comma split parsed chunk by chunk with the given parser. -/
def parseFunctionArgsF (pe : String → Expression) (argsStr : String) : List Expression :=
  if (trimJS argsStr).toList.isEmpty then []
  else (splitArgChunks argsStr).map pe

/-- `parseSqlExpression(value)`: regex match, else the empty-statement
degradation (statement text empty, no arguments). -/
def parseSqlExpressionF (pe : String → Expression) (value : String) : Expression :=
  match sqlMatch value with
  | none => .sql ("") []
  | some (q, argsStr) => .sql q (parseFunctionArgsF pe argsStr)

/-- One iteration of the part loop in `parseIfExpression`: an `else:` part
assigns the else expression (overwriting any previous one), a part with a
depth-0 colon appends a branch, and a part with no colon is skipped. -/
def ifPartStep (pe : String → Expression)
    (acc : List (Condition × Expression) × Option Expression) (part : String) :
    List (Condition × Expression) × Option Expression :=
  if startsWithJS (trimJS part) ("else:") then
    (acc.1, some (pe (trimJS (sliceFromJS (trimJS part) 5))))
  else
    match findColonInBranch part with
    | none => acc
    | some i =>
      let conditionStr := trimJS (sliceJS part 0 i)
      let valueStr := trimJS (sliceFromJS part (i + 1))
      (acc.1 ++ [(parseCondition (conditionStr.toList.length + 1) conditionStr, pe valueStr)],
       acc.2)

/-- `parseIfExpression(value)`: extract the inner content, split into
branch parts, and fold the parts into branches and an else expression. -/
def parseIfExpressionF (pe : String → Expression) (value : String) : Expression :=
  let inner := extractFunctionContent value ("if")
  let parts := splitIfBranches inner
  let acc := parts.foldl (ifPartStep pe) ([], none)
  .ifE acc.1 acc.2

/-- `parseExpression(value)` from `src/parser.ts`: function-call prefix
dispatch in priority order, then literal classification. -/
def parseExpression (jp : String → Option Value) : Nat → String → Expression
  | 0, _ => .literal .null
  | n + 1, value =>
    let tv := trimJS value
    if startsWithJS tv ("sql(") then parseSqlExpressionF (fun s => parseExpression jp n s) tv
    else if startsWithJS tv ("param(") then
      .param (stripColon (extractFunctionContent tv ("param")))
    else if startsWithJS tv ("query(") then .queryRef (extractFunctionContent tv ("query"))
    else if startsWithJS tv ("body(") then .body (extractFunctionContent tv ("body"))
    else if startsWithJS tv ("header(") then .header (extractFunctionContent tv ("header"))
    else if startsWithJS tv ("var(") then
      .var (stripDashes (extractFunctionContent tv ("var")))
    else if startsWithJS tv ("if(") then parseIfExpressionF (fun s => parseExpression jp n s) tv
    else if matchesNumber tv.toList then .literal (.num (parseFloatQ tv.toList))
    else if tv = "true" || tv = "false" then .literal (.bool (tv = "true"))
    else if tv = "null" then .literal .null
    else if startsWithJS tv ("[") || startsWithJS tv ("\x7b") then
      match jp tv with
      | some v => .json v
      | none => .literal (.str (parseStringValue tv))
    else .literal (.str (parseStringValue tv))

/-- Named wrapper recovering the source's `parseSqlExpression`. -/
def parseSqlExpression (jp : String → Option Value) (n : Nat) (value : String) : Expression :=
  parseSqlExpressionF (fun s => parseExpression jp n s) value

/-- Named wrapper recovering the source's `parseIfExpression`. -/
def parseIfExpression (jp : String → Option Value) (n : Nat) (value : String) : Expression :=
  parseIfExpressionF (fun s => parseExpression jp n s) value

/-- Named wrapper recovering the source's `parseFunctionArgs`. -/
def parseFunctionArgs (jp : String → Option Value) (n : Nat) (argsStr : String) : List Expression :=
  parseFunctionArgsF (fun s => parseExpression jp n s) argsStr

end Cssu

namespace Cssu

/-! ## Route model and the compiled handler (`src/compiler.ts`, source
embedded in `docs/SYNTAX.md`, lines 628-736) -/

/-- One `--name: value` declaration. -/
structure VariableAssignment where
  name : String
  value : Expression
deriving Repr

/-- `StatusValue` from `src/types.ts`: a literal number, or an expression
(`var`/`if` shaped) to evaluate. -/
inductive StatusValue where
  | literal (value : ℚ) : StatusValue
  | varStatus (value : Expression) : StatusValue
  | ifStatus (value : Expression) : StatusValue
deriving Repr

/-- Return kind of a route. -/
inductive ReturnKind where
  | json : ReturnKind
  | html : ReturnKind
deriving Repr, DecidableEq

/-- `ReturnValue` from `src/types.ts`. -/
structure ReturnValue where
  kind : ReturnKind
  value : Expression
deriving Repr

/-- `RouteRule` from `src/types.ts` (the fields the handler consumes). -/
structure RouteRule where
  path : String
  method : String
  assigns : List VariableAssignment
  status : Option StatusValue
  ret : ReturnValue
deriving Repr

/-- Inbound request as delivered by the router collaborator. -/
structure RequestData where
  params : List (String × String)
  query : List (String × String)
  reqBody : Value
  headers : List (String × String)
deriving Repr

/-- `normalizeHeaders`: keys case-folded to lowercase (values are already
single strings in this model). -/
def normalizeHeaders (hs : List (String × String)) : List (String × String) :=
  hs.map (fun p => (toLowerJS p.1, p.2))

/-- `normalizeBody`: a non-object (or absent) body becomes the empty
object. -/
def normalizeBody : Value → List (String × Value)
  | .obj kvs => kvs
  | _ => []

/-- The freshly constructed per-request context of `createHandler`. -/
def initCtx (req : RequestData) : RequestContext :=
  { params := req.params
    query := req.query
    body := normalizeBody req.reqBody
    headers := normalizeHeaders req.headers
    vars := [] }

/-- The assignment loop of `createHandler`: each result is bound into the
context before the next assignment is evaluated. -/
def bindVars (db : Option DbConn) (assigns : List VariableAssignment)
    (ctx : RequestContext) : RequestContext :=
  assigns.foldl (fun c a => setVar c a.name (evaluateExpression db a.value c)) ctx

/-- Response produced by a handler: an optional status override and a
body emission. -/
inductive ResponseBody where
  | json (v : Value) : ResponseBody
  | html (s : String) : ResponseBody
deriving Repr

/-- Handler outcome; `status = none` models the response status left at
its default. -/
structure HandlerResult where
  status : Option ℚ
  respBody : ResponseBody
deriving Repr

/-- `createHandler(route)` applied to one request: build the context,
run the assignment loop, resolve the status (literal used directly;
`var`/`if` evaluated and coerced by `Number(...)`, with the
`Number.isFinite` guard leaving the default status on a non-finite
result — in this model a coercion's `none`), then evaluate and emit the
return value. -/
def createHandler (db : Option DbConn) (route : RouteRule) (req : RequestData) :
    HandlerResult :=
  let ctx0 := initCtx req
  let ctx := bindVars db route.assigns ctx0
  let st : Option ℚ :=
    match route.status with
    | none => none
    | some sv =>
      let statusValue : Option ℚ :=
        match sv with
        | .literal n => some n
        | .varStatus e => jsToNumber (evaluateExpression db e ctx)
        | .ifStatus e => jsToNumber (evaluateExpression db e ctx)
      match statusValue with
      | some n => some n
      | none => none
  let result := evaluateExpression db route.ret.value ctx
  { status := st
    respBody :=
      match route.ret.kind with
      | .json => .json result
      | .html => .html (match result with
          | .str s => s
          | v => jsToString v) }

end Cssu

namespace Cssu

/-! ## Shared concrete fixtures for witnesses -/

/-- The empty request context. -/
def emptyCtx : RequestContext := ⟨[], [], [], [], []⟩

/-- JSON.parse model that always fails; the concrete statements using it
never reach the JSON branch, so any instantiation gives the same result. -/
def noJson : String → Option Value := fun _ => none

/-! ## C3: conditional branch selection -/

/-- C3: `evaluateIf` tests branch conditions in source order and returns
the evaluated value of the first branch whose condition holds; when none
holds it evaluates the else expression if present and otherwise yields
`Null`.  The `find?` form makes first-match explicit and shows values of
non-selected branches are never returned. -/
theorem evaluateIf_first_match (db : Option DbConn)
    (branches : List (Condition × Expression)) (elseValue : Option Expression)
    (ctx : RequestContext) :
    evaluateIf db branches elseValue ctx =
      match branches.find? (fun b => evaluateCondition b.1 ctx) with
      | some b => evaluateExpression db b.2 ctx
      | none =>
        match elseValue with
        | some e => evaluateExpression db e ctx
        | none => .null := by
  induction branches with
  | nil => cases elseValue <;> simp [evaluateIf]
  | cons b bs ih =>
    obtain ⟨c, v⟩ := b
    by_cases h : evaluateCondition c ctx
    · simp [evaluateIf, List.find?_cons, h]
    · simp only [evaluateIf, List.find?_cons, h, if_neg, Bool.false_eq_true, ite_false]
      simpa using ih

end Cssu

namespace Cssu

/-! ## C6: truthiness of `Truthy` conditions -/

/-- C6: `Truthy(name)` is false when the variable is unbound, `Null`,
the number 0, the empty string, an empty array, or an empty object, and
equals the stored boolean for `Bool`; it is true for a non-zero number, a
non-empty string, a non-empty array, or an object with at least one key. -/
theorem evaluateCondition_truthy (ctx : RequestContext) (n : String) :
    (ctx.getVar n = .undefinedV → evaluateCondition (.truthy n) ctx = false)
    ∧ (ctx.getVar n = .null → evaluateCondition (.truthy n) ctx = false)
    ∧ (ctx.getVar n = .num 0 → evaluateCondition (.truthy n) ctx = false)
    ∧ (ctx.getVar n = .str ("") → evaluateCondition (.truthy n) ctx = false)
    ∧ (ctx.getVar n = .arr [] → evaluateCondition (.truthy n) ctx = false)
    ∧ (ctx.getVar n = .obj [] → evaluateCondition (.truthy n) ctx = false)
    ∧ (∀ b, ctx.getVar n = .bool b → evaluateCondition (.truthy n) ctx = b)
    ∧ (∀ q, ctx.getVar n = .num q → q ≠ 0 → evaluateCondition (.truthy n) ctx = true)
    ∧ (∀ s, ctx.getVar n = .str s → s ≠ "" → evaluateCondition (.truthy n) ctx = true)
    ∧ (∀ l, ctx.getVar n = .arr l → l ≠ [] → evaluateCondition (.truthy n) ctx = true)
    ∧ (∀ kvs, ctx.getVar n = .obj kvs → kvs ≠ [] →
        evaluateCondition (.truthy n) ctx = true) := by
  refine ⟨fun h => by simp [evaluateCondition, h],
          fun h => by simp [evaluateCondition, h],
          fun h => by simp [evaluateCondition, h],
          fun h => by simp [evaluateCondition, h],
          fun h => by simp [evaluateCondition, h],
          fun h => by simp [evaluateCondition, h],
          fun b h => by simp [evaluateCondition, h],
          fun q h hq => by simp [evaluateCondition, h, hq],
          fun s h hs => ?_,
          fun l h hl => by
            simp [evaluateCondition, h, List.length_pos]
            exact hl,
          fun kvs h hk => by
            simp [evaluateCondition, h, List.length_pos]
            exact hk⟩
  simp [evaluateCondition, h, List.length_pos]
  cases s with
  | mk data =>
    cases data with
    | nil => exact absurd rfl hs
    | cons c cs => simp [String.length]

/-- Witness for C6 at concrete bindings: the number 0 is falsy and a
non-empty string is truthy. -/
theorem evaluateCondition_truthy_witness :
    evaluateCondition (.truthy ("x")) ⟨[], [], [], [], [("x", .num 0)]⟩ = false
    ∧ evaluateCondition (.truthy ("y")) ⟨[], [], [], [], [("y", .str ("hi"))]⟩ = true := by
  constructor
  · exact (evaluateCondition_truthy ⟨[], [], [], [], [("x", .num 0)]⟩ "x").2.2.1 rfl
  · exact (evaluateCondition_truthy ⟨[], [], [], [], [("y", .str ("hi"))]⟩ "y").2.2.2.2.2.2.2.2.1
      ("hi") rfl (by simp)

end Cssu

namespace Cssu

/-! ## C7: assignment ordering in the handler -/

/-- C7: the handler's assignment loop (`bindVars`, used verbatim by
`createHandler`) evaluates assignments strictly in declaration order.
Each step binds its result before the next assignment is evaluated (cons
equation); the context after a prefix is independent of the remaining
assignments, so an earlier assignment never observes a later one (append
equation); and the last assignment is evaluated against the environment
holding every earlier binding (snoc equation). -/
theorem bindVars_declaration_order (db : Option DbConn)
    (a : VariableAssignment) (as bs : List VariableAssignment)
    (ctx : RequestContext) :
    (bindVars db (a :: as) ctx =
      bindVars db as (setVar ctx a.name (evaluateExpression db a.value ctx)))
    ∧ (bindVars db (as ++ bs) ctx = bindVars db bs (bindVars db as ctx))
    ∧ (bindVars db (as ++ [a]) ctx =
        setVar (bindVars db as ctx) a.name
          (evaluateExpression db a.value (bindVars db as ctx))) := by
  refine ⟨rfl, ?_, ?_⟩
  · simp [bindVars, List.foldl_append]
  · simp [bindVars, List.foldl_append]

/-! ## C2: database failures are caught -/

/-- C2: when the executor throws during `evaluateSql` — at `prepare` or at
the dispatched statement call, i.e. whenever the try-block pipeline
`sqlExec` reports an error — evaluation returns the object
`{ error: message }`; `evaluateExpression` is total, so the failure never
propagates. -/
theorem evaluateSql_catches (conn : DbConn) (q : String)
    (args : List Expression) (ctx : RequestContext) (m : String) :
    (conn.prepare q = .error m →
      evaluateSql (some conn) q args ctx = errObj m)
    ∧ (sqlExec conn q args.length (evalArgs (some conn) args ctx) = .error m →
      evaluateSql (some conn) q args ctx = errObj m)
    ∧ (∀ e, evaluateExpression (some conn) (.sql q args) ctx = e →
        e = evaluateSql (some conn) q args ctx) := by
  refine ⟨?_, ?_, ?_⟩
  · intro h
    have hexec : sqlExec conn q args.length (evalArgs (some conn) args ctx) = .error m := by
      unfold sqlExec
      rw [h]
      rfl
    simp [evaluateSql, hexec]
  · intro h
    simp [evaluateSql, h]
  · intro e he
    simp [evaluateExpression] at he
    exact he.symm

/-- Witness for C2: a connection whose `prepare` always throws makes a
query evaluate to the error object. -/
theorem evaluateSql_catches_witness :
    evaluateSql (some ⟨fun _ => .error ("no such table: t")⟩)
      ("SELECT * FROM t") [] emptyCtx = errObj ("no such table: t") :=
  (evaluateSql_catches ⟨fun _ => .error ("no such table: t")⟩
    ("SELECT * FROM t") [] emptyCtx ("no such table: t")).1 rfl

end Cssu

namespace Cssu

/-! ## C1: SELECT dispatch heuristic -/

/-- C1: for a statement whose trimmed text starts (case-insensitively)
with SELECT, `evaluateSql` fetches one row exactly when the raw text
contains the substring `LIMIT 1` or exactly one argument expression was
supplied — returning the matched row as an object, or `Null` when none
matched — and otherwise fetches all rows and returns them as an array of
row objects. -/
theorem evaluateSql_select_dispatch (conn : DbConn) (stmt : Stmt)
    (q : String) (args : List Expression) (ctx : RequestContext)
    (hsel : startsWithJS (toUpperJS (trimJS q)) ("SELECT") = true)
    (hprep : conn.prepare q = .ok stmt) :
    ((includesJS q ("LIMIT 1") || args.length == 1) = true →
      (∀ row, stmt.get (evalArgs (some conn) args ctx) = .ok (some row) →
        evaluateSql (some conn) q args ctx = .obj row)
      ∧ (stmt.get (evalArgs (some conn) args ctx) = .ok none →
        evaluateSql (some conn) q args ctx = .null))
    ∧ ((includesJS q ("LIMIT 1") || args.length == 1) = false →
      ∀ rows, stmt.all (evalArgs (some conn) args ctx) = .ok rows →
        evaluateSql (some conn) q args ctx = .arr (rows.map Value.obj)) := by
  constructor
  · intro hone
    constructor
    · intro row hget
      have hexec : sqlExec conn q args.length (evalArgs (some conn) args ctx) =
          .ok (.obj row) := by
        unfold sqlExec
        rw [hprep]
        show (do
          if startsWithJS (toUpperJS (trimJS q)) ("SELECT") then _ else _ :
            Except String Value) = _
        rw [if_pos (by simpa using hsel)]
        rw [if_pos (by simpa using hone)]
        show (do
          let r ← stmt.get (evalArgs (some conn) args ctx)
          match r with
          | some row => pure (Value.obj row)
          | none => pure Value.null : Except String Value) = _
        rw [hget]
        rfl
      simp [evaluateSql, hexec]
    · intro hget
      have hexec : sqlExec conn q args.length (evalArgs (some conn) args ctx) =
          .ok .null := by
        unfold sqlExec
        rw [hprep]
        show (do
          if startsWithJS (toUpperJS (trimJS q)) ("SELECT") then _ else _ :
            Except String Value) = _
        rw [if_pos (by simpa using hsel)]
        rw [if_pos (by simpa using hone)]
        show (do
          let r ← stmt.get (evalArgs (some conn) args ctx)
          match r with
          | some row => pure (Value.obj row)
          | none => pure Value.null : Except String Value) = _
        rw [hget]
        rfl
      simp [evaluateSql, hexec]
  · intro hmany rows hall
    have hexec : sqlExec conn q args.length (evalArgs (some conn) args ctx) =
        .ok (.arr (rows.map Value.obj)) := by
      unfold sqlExec
      rw [hprep]
      show (do
        if startsWithJS (toUpperJS (trimJS q)) ("SELECT") then _ else _ :
          Except String Value) = _
      rw [if_pos (by simpa using hsel)]
      rw [if_neg (by simpa using hmany)]
      show Functor.map _ (stmt.all (evalArgs (some conn) args ctx)) = _
      rw [hall]
      rfl
    simp [evaluateSql, hexec]

end Cssu

namespace Cssu

/-- A concrete statement over a two-row table for the C1 witness. -/
def stmtTwoRows : Stmt :=
  ⟨fun _ => .ok (some [("id", .num 1), ("name", .str ("John"))]),
   fun _ => .ok [[("id", .num 1), ("name", .str ("John"))], [("id", .num 2), ("name", .str ("Jane"))]],
   fun _ => .ok ⟨0, 0⟩⟩

/-- A connection that prepares `stmtTwoRows` for every statement. -/
def connTwoRows : DbConn := ⟨fun _ => .ok stmtTwoRows⟩

/-- Witness for C1: one supplied argument fetches a single row object;
the same table with zero arguments and no `LIMIT 1` yields the full
array. -/
theorem evaluateSql_select_dispatch_witness :
    evaluateSql (some connTwoRows) ("SELECT * FROM users WHERE id = ?")
      [.literal (.num 1)] emptyCtx = .obj [("id", .num 1), ("name", .str ("John"))]
    ∧ evaluateSql (some connTwoRows) ("SELECT * FROM users") [] emptyCtx =
      .arr [.obj [("id", .num 1), ("name", .str ("John"))],
            .obj [("id", .num 2), ("name", .str ("Jane"))]] := by
  constructor
  · exact ((evaluateSql_select_dispatch connTwoRows stmtTwoRows
      ("SELECT * FROM users WHERE id = ?") [.literal (.num 1)] emptyCtx
      (by decide) rfl).1 (by decide)).1 [("id", .num 1), ("name", .str ("John"))] rfl
  · exact (evaluateSql_select_dispatch connTwoRows stmtTwoRows
      ("SELECT * FROM users") [] emptyCtx (by decide) rfl).2 (by decide)
      [[("id", .num 1), ("name", .str ("John"))], [("id", .num 2), ("name", .str ("Jane"))]] rfl

end Cssu

namespace Cssu

/-! ## C8: status resolution in the handler -/

/-- C8: `createHandler` resolves a literal status spec directly; a
`var`- or `if`-shaped spec is evaluated against the populated environment
and coerced by `Number(...)` — the response status equals exactly that
coercion, so a non-finite coercion (modelled as `none`) leaves the
default status untouched. -/
theorem createHandler_status (db : Option DbConn) (route : RouteRule)
    (req : RequestData) :
    (∀ n, route.status = some (.literal n) →
      (createHandler db route req).status = some n)
    ∧ (∀ e, route.status = some (.varStatus e) →
      (createHandler db route req).status =
        jsToNumber (evaluateExpression db e (bindVars db route.assigns (initCtx req))))
    ∧ (∀ e, route.status = some (.ifStatus e) →
      (createHandler db route req).status =
        jsToNumber (evaluateExpression db e (bindVars db route.assigns (initCtx req)))) := by
  refine ⟨?_, ?_, ?_⟩
  · intro n h
    simp [createHandler, h]
  · intro e h
    simp only [createHandler, h]
    cases hc : jsToNumber (evaluateExpression db e (bindVars db route.assigns (initCtx req))) <;>
      simp [hc]
  · intro e h
    simp only [createHandler, h]
    cases hc : jsToNumber (evaluateExpression db e (bindVars db route.assigns (initCtx req))) <;>
      simp [hc]

/-- Witness for C8: a literal status is used directly, and a `var` status
reading an unbound variable coerces to `NaN`, leaving the status unset. -/
theorem createHandler_status_witness :
    (createHandler none
      ⟨"/a", "GET", [], some (.literal 404), ⟨.json, .literal .null⟩⟩
      ⟨[], [], .null, []⟩).status = some 404
    ∧ (createHandler none
      ⟨"/b", "GET", [], some (.varStatus (.var ("missing"))), ⟨.json, .literal .null⟩⟩
      ⟨[], [], .null, []⟩).status = none := by
  constructor
  · exact (createHandler_status none
      ⟨"/a", "GET", [], some (.literal 404), ⟨.json, .literal .null⟩⟩
      ⟨[], [], .null, []⟩).1 404 rfl
  · have h := (createHandler_status none
      ⟨"/b", "GET", [], some (.varStatus (.var ("missing"))), ⟨.json, .literal .null⟩⟩
      ⟨[], [], .null, []⟩).2.1 (.var ("missing")) rfl
    rw [h]
    have hv : evaluateExpression none (.var ("missing"))
        (bindVars none [] (initCtx ⟨[], [], .null, []⟩)) = .undefinedV := by
      simp [evaluateExpression, bindVars, initCtx, RequestContext.getVar, assocFind,
        normalizeBody, normalizeHeaders]
    rw [hv]
    rfl

end Cssu

namespace Cssu

/-! ## C4: balanced-content extraction is not quote-aware -/

/-- Depth reached after scanning a character list from the given starting
depth, counting every parenthesis (quoted or not), exactly as the
`extractFunctionContent` loop does. -/
def depthAfter : List Char → Nat → Nat
  | [], d => d
  | c :: cs, d =>
    if c = '(' then depthAfter cs (d + 1)
    else if c = ')' then depthAfter cs (d - 1)
    else depthAfter cs d

/-- If the scan never closes within `inner`, scanning `inner ++ rest`
continues into `rest` at the carried depth, offset by `inner.length`. -/
theorem closeIdx_append (rest : List Char) :
    ∀ (inner : List Char) (d : Nat), closeIdx inner d = none →
      closeIdx (inner ++ rest) d =
        (closeIdx rest (depthAfter inner d)).map (fun i => i + inner.length) := by
  intro inner
  induction inner with
  | nil =>
    intro d _
    simp [depthAfter]
  | cons c cs ih =>
    intro d h
    by_cases hop : c = '('
    · have hnone : closeIdx cs (d + 1) = none := by
        cases hcs : closeIdx cs (d + 1) with
        | none => rfl
        | some i => simp [closeIdx, hop, hcs] at h
      have hstep : closeIdx ((c :: cs) ++ rest) d =
          (closeIdx (cs ++ rest) (d + 1)).map (fun i => i + 1) := by
        simp [closeIdx, hop]
      rw [hstep, ih (d + 1) hnone]
      have hda : depthAfter (c :: cs) d = depthAfter cs (d + 1) := by
        simp [depthAfter, hop]
      rw [hda]
      cases hO : closeIdx rest (depthAfter cs (d + 1)) with
      | none => simp [hO]
      | some i =>
        simp [hO]
        omega
    · by_cases hcl : c = ')'
      · have hd : ¬ d = 1 := by
          intro hd1
          simp [closeIdx, hop, hcl, hd1] at h
        have hnone : closeIdx cs (d - 1) = none := by
          cases hcs : closeIdx cs (d - 1) with
          | none => rfl
          | some i => simp [closeIdx, hop, hcl, hd, hcs] at h
        have hstep : closeIdx ((c :: cs) ++ rest) d =
            (closeIdx (cs ++ rest) (d - 1)).map (fun i => i + 1) := by
          simp [closeIdx, hop, hcl, hd]
        rw [hstep, ih (d - 1) hnone]
        have hda : depthAfter (c :: cs) d = depthAfter cs (d - 1) := by
          simp [depthAfter, hop, hcl]
        rw [hda]
        cases hO : closeIdx rest (depthAfter cs (d - 1)) with
        | none => simp [hO]
        | some i =>
          simp [hO]
          omega
      · have hnone : closeIdx cs d = none := by
          cases hcs : closeIdx cs d with
          | none => rfl
          | some i => simp [closeIdx, hop, hcl, hcs] at h
        have hstep : closeIdx ((c :: cs) ++ rest) d =
            (closeIdx (cs ++ rest) d).map (fun i => i + 1) := by
          simp [closeIdx, hop, hcl]
        rw [hstep, ih d hnone]
        have hda : depthAfter (c :: cs) d = depthAfter cs d := by
          simp [depthAfter, hop, hcl]
        rw [hda]
        cases hO : closeIdx rest (depthAfter cs d) with
        | none => simp [hO]
        | some i =>
          simp [hO]
          omega

/-- A pattern that prefixes a nonempty list is found at index zero. -/
theorem idxOfSub_prefix (pat l : List Char) (hne : l ≠ [])
    (hp : pat.isPrefixOf l = true) : idxOfSub pat l = some 0 := by
  cases l with
  | nil => exact absurd rfl hne
  | cons a as => simp [idxOfSub, hp]

/-- Counterexample to C4: `extractFunctionContent` counts a parenthesis
inside a quoted run, so for an `if(...)` fragment whose quoted content
contains a closing parenthesis the extraction stops early instead of
reaching the true matching parenthesis. -/
theorem extractFunctionContent_not_quote_aware :
    extractFunctionContent ("if(\"a)b\": 1)") ("if") = "\"a"
    ∧ extractFunctionContent ("if(\"a)b\": 1)") ("if") ≠ "\"a)b\": 1" := by
  refine ⟨rfl, ?_⟩
  intro h
  have h2 : ("\"a" : String) = "\"a)b\": 1" := by
    rw [← h]
    rfl
  simp at h2

/-- C4 amended: the extraction is depth-tracked but not quote-aware —
every parenthesis counts.  For a fragment `name(inner)` whose inner text
never closes the function parenthesis early and has balanced parentheses
(quoted ones included), the extracted text is exactly `inner`. -/
theorem extractFunctionContent_balanced (name inner : String)
    (h1 : closeIdx inner.toList 1 = none)
    (h2 : depthAfter inner.toList 1 = 1) :
    extractFunctionContent (name ++ "(" ++ inner ++ ")") name = inner := by
  have hv : (name ++ "(" ++ inner ++ ")").toList =
      (name.toList ++ ['(']) ++ (inner.toList ++ [')']) := by
    show (name ++ "(" ++ inner ++ ")").data = _
    simp [String.data_append]
  have hpat : (name ++ "(").toList = name.toList ++ ['('] := by
    show (name ++ "(").data = _
    simp [String.data_append]
  have hpref : (name.toList ++ ['(']).isPrefixOf
      ((name.toList ++ ['(']) ++ (inner.toList ++ [')'])) = true := by
    rw [List.isPrefixOf_iff_prefix]
    exact ⟨inner.toList ++ [')'], rfl⟩
  have hidx : idxOfSub (name.toList ++ ['('])
      ((name.toList ++ ['(']) ++ (inner.toList ++ [')'])) = some 0 :=
    idxOfSub_prefix _ _ (by simp) hpref
  have hdrop : ((name.toList ++ ['(']) ++ (inner.toList ++ [')'])).drop
      (0 + name.length + 1) = inner.toList ++ [')'] := by
    have hlen : 0 + name.length + 1 = (name.toList ++ ['(']).length := by
      rw [List.length_append]
      have hx : name.length = name.toList.length := rfl
      have hy : (['('] : List Char).length = 1 := rfl
      omega
    rw [hlen]
    exact List.drop_left _ _
  have hclose : closeIdx (inner.toList ++ [')']) 1 = some inner.toList.length := by
    rw [closeIdx_append [')'] inner.toList 1 h1, h2]
    have hone : closeIdx [')'] 1 = some 0 := rfl
    rw [hone]
    simp
  simp only [extractFunctionContent, hv, hpat, hidx, hdrop, hclose]
  rw [List.take_left]
  rfl

/-- Witness for the amended C4: content with quoted separators and a
balanced nested call is extracted in full. -/
theorem extractFunctionContent_balanced_witness :
    extractFunctionContent ("if" ++ "(" ++ "--x = \"a,b\": f(1)" ++ ")") ("if") =
      "--x = \"a,b\": f(1)" :=
  extractFunctionContent_balanced ("if") ("--x = \"a,b\": f(1)") (by decide) (by decide)

end Cssu

namespace Cssu

/-! ## C5: which `else:` part wins -/

/-- Auxiliary: `find?` over an append searches the left part first. -/
theorem find?_append {α : Type} (f : α → Bool) :
    ∀ (l1 l2 : List α), (l1 ++ l2).find? f =
      match l1.find? f with
      | some x => some x
      | none => l2.find? f := by
  intro l1 l2
  induction l1 with
  | nil => simp
  | cons a as ih =>
    by_cases h : f a
    · simp [List.find?_cons, h]
    · simp only [List.cons_append, List.find?_cons, h, Bool.false_eq_true, ite_false]
      simpa using ih

/-- The else expression produced by the part loop is decided by the LAST
part whose trim starts with `else:` (each such part overwrites the
accumulator), falling back to the incoming accumulator value. -/
theorem ifFold_last_else (pe : String → Expression) :
    ∀ (parts : List String) (branches : List (Condition × Expression))
      (e : Option Expression),
      (parts.foldl (ifPartStep pe) (branches, e)).2 =
        match parts.reverse.find? (fun p => startsWithJS (trimJS p) ("else:")) with
        | some p => some (pe (trimJS (sliceFromJS (trimJS p) 5)))
        | none => e := by
  intro parts
  induction parts with
  | nil =>
    intro branches e
    simp
  | cons p ps ih =>
    intro branches e
    rw [List.foldl_cons]
    by_cases hE : startsWithJS (trimJS p) ("else:") = true
    · have hstep : ifPartStep pe (branches, e) p =
          (branches, some (pe (trimJS (sliceFromJS (trimJS p) 5)))) := by
        simp [ifPartStep, hE]
      rw [hstep, ih]
      rw [List.reverse_cons, find?_append]
      have hfp : List.find? (fun p => startsWithJS (trimJS p) ("else:")) [p] = some p := by
        simp [List.find?, hE]
      rw [hfp]
      cases List.find? (fun p => startsWithJS (trimJS p) ("else:")) ps.reverse <;> simp
    · have hE' : startsWithJS (trimJS p) ("else:") = false := by
        simpa using hE
      have hfp : List.find? (fun p => startsWithJS (trimJS p) ("else:")) [p] = none := by
        simp [List.find?, hE']
      have hsnd : (ifPartStep pe (branches, e) p).2 = e := by
        unfold ifPartStep
        rw [if_neg (by simp [hE'])]
        cases findColonInBranch p <;> rfl
      have hbs : ifPartStep pe (branches, e) p =
          ((ifPartStep pe (branches, e) p).1, (ifPartStep pe (branches, e) p).2) := rfl
      rw [hsnd] at hbs
      rw [hbs, ih]
      rw [List.reverse_cons, find?_append, hfp]
      cases List.find? (fun p => startsWithJS (trimJS p) ("else:")) ps.reverse <;> simp

/-- The else component of a parsed conditional. -/
def elseOf : Expression → Option Expression
  | .ifE _ e => e
  | _ => none

/-- C5 amended: when the inner content of an `if(...)` splits into parts
with more than one `else:` part, the parsed else expression comes from the
LAST such part — each `else:` part overwrites the previous value — not
from the first as claimed. -/
theorem parseIfExpression_last_else (jp : String → Option Value) (n : Nat)
    (value : String) :
    elseOf (parseIfExpression jp n value) =
      match (splitIfBranches (extractFunctionContent value ("if"))).reverse.find?
          (fun p => startsWithJS (trimJS p) ("else:")) with
      | some p => some (parseExpression jp n (trimJS (sliceFromJS (trimJS p) 5)))
      | none => none := by
  unfold parseIfExpression parseIfExpressionF
  simp only [elseOf]
  exact ifFold_last_else _ _ [] none

/-- Counterexample to C5: with two `else:` parts the parsed else
expression is the second one, not the first. -/
theorem parseIfExpression_first_else_false :
    parseIfExpression noJson 9 ("if(--x: \"a\"; else: \"b\"; else: \"c\")") =
      .ifE [(.truthy ("x"), .literal (.str ("a")))] (some (.literal (.str ("c"))))
    ∧ elseOf (parseIfExpression noJson 9 ("if(--x: \"a\"; else: \"b\"; else: \"c\")")) ≠
      some (.literal (.str ("b"))) := by
  refine ⟨rfl, ?_⟩
  intro h
  have h2 : (some (Expression.literal (.str ("c"))) : Option Expression) =
      some (.literal (.str ("b"))) := by
    rw [← h]
    rfl
  simp at h2

end Cssu

namespace Cssu

/-! ## C9: literal round-trip -/

/-- A digit differs from any non-digit character. -/
theorem digit_ne_of_not_digit {c a : Char} (h : c.isDigit = true)
    (ha : a.isDigit = false) : c ≠ a := by
  intro he
  rw [he, ha] at h
  exact Bool.false_ne_true h

/-- `dropWhile` is the identity when no element satisfies the predicate. -/
theorem dropWhile_of_all_neg {p : Char → Bool} :
    ∀ {l : List Char}, l.all (fun c => !p c) = true → l.dropWhile p = l := by
  intro l
  induction l with
  | nil => intro _; rfl
  | cons c cs ih =>
    intro h
    simp only [List.all_cons, Bool.and_eq_true, Bool.not_eq_true'] at h
    simp [List.dropWhile_cons, h.1]

/-- `takeWhile`/`dropWhile` over a block of satisfying elements followed by
a non-satisfying boundary. -/
theorem takeWhile_block {p : Char → Bool} :
    ∀ (l1 l2 : List Char), l1.all p = true →
      (l2 = [] ∨ ∃ c cs, l2 = c :: cs ∧ p c = false) →
      (l1 ++ l2).takeWhile p = l1 ∧ (l1 ++ l2).dropWhile p = l2 := by
  intro l1
  induction l1 with
  | nil =>
    intro l2 _ h2
    rcases h2 with h2 | ⟨c, cs, hl, hc⟩
    · subst h2
      exact ⟨rfl, rfl⟩
    · subst hl
      constructor
      · simp [List.takeWhile_cons, hc]
      · simp [List.dropWhile_cons, hc]
  | cons a as ih =>
    intro l2 h1 h2
    simp only [List.all_cons, Bool.and_eq_true] at h1
    have hih := ih l2 h1.2 h2
    constructor
    · simp [List.takeWhile_cons, h1.1, hih.1]
    · simp [List.dropWhile_cons, h1.1, hih.2]

/-- Trimming is the identity on whitespace-free character lists. -/
theorem trimJS_of_no_ws (l : List Char) (h : l.all (fun c => !isWs c) = true) :
    trimJS (String.mk l) = String.mk l := by
  unfold trimJS trimLeftL trimRightL
  have h1 : l.dropWhile isWs = l := dropWhile_of_all_neg h
  have hrev : l.reverse.all (fun c => !isWs c) = true := by
    simpa using h
  have h2 : l.reverse.dropWhile isWs = l.reverse := dropWhile_of_all_neg hrev
  show String.mk ((((String.mk l).toList.dropWhile isWs).reverse.dropWhile isWs).reverse) =
    String.mk l
  have htl : (String.mk l).toList = l := rfl
  rw [htl, h1, h2, List.reverse_reverse]

/-- A digit is not whitespace. -/
theorem isWs_of_digit {c : Char} (h : c.isDigit = true) : isWs c = false := by
  cases hc : isWs c
  · rfl
  · exfalso
    unfold isWs at hc
    simp only [Bool.or_eq_true, decide_eq_true_eq] at hc
    rcases hc with ((h1 | h1) | h1) | h1 <;> (subst h1; simp at h)

end Cssu

namespace Cssu

/-- Elements retained by `takeWhile` satisfy the predicate. -/
theorem all_takeWhile (p : Char → Bool) :
    ∀ l : List Char, (l.takeWhile p).all p = true := by
  intro l
  induction l with
  | nil => rfl
  | cons c cs ih =>
    by_cases hc : p c
    · simp [List.takeWhile_cons, hc, ih]
    · simp [List.takeWhile_cons, hc]

/-- Weaken an `all` along a pointwise implication. -/
theorem all_weaken {p q : Char → Bool} (hpq : ∀ c, p c = true → q c = true) :
    ∀ {l : List Char}, l.all p = true → l.all q = true := by
  intro l
  induction l with
  | nil => intro _; rfl
  | cons c cs ih =>
    intro h
    simp only [List.all_cons, Bool.and_eq_true] at h ⊢
    exact ⟨hpq c h.1, ih h.2⟩

/-- Inversion of the numeric-literal grammar test: the text is nonempty,
starts with a minus sign or a digit, and contains no whitespace. -/
theorem matchesNumber_inv (l : List Char) (h : matchesNumber l = true) :
    (∃ c rest, l = c :: rest ∧ (c = '-' ∨ c.isDigit = true))
    ∧ l.all (fun c => !isWs c) = true := by
  cases l with
  | nil => exact absurd h (by decide)
  | cons c cs =>
    by_cases hC : c = '-'
    · subst hC
      have hbody : matchesNumber ('-' :: cs) =
          (!(cs.takeWhile Char.isDigit).isEmpty &&
            ((cs.dropWhile Char.isDigit).isEmpty ||
              ((cs.dropWhile Char.isDigit).head? = some '.' &&
                !(cs.dropWhile Char.isDigit).tail.isEmpty &&
                (cs.dropWhile Char.isDigit).tail.all Char.isDigit))) := by
        simp [matchesNumber]
      rw [hbody] at h
      refine ⟨⟨'-', cs, rfl, Or.inl rfl⟩, ?_⟩
      simp only [List.all_cons, Bool.and_eq_true]
      refine ⟨by decide, ?_⟩
      -- cs = takeWhile ++ dropWhile; each part is whitespace-free
      have hsplit : cs.takeWhile Char.isDigit ++ cs.dropWhile Char.isDigit = cs :=
        List.takeWhile_append_dropWhile Char.isDigit cs
      rw [← hsplit, List.all_append]
      simp only [Bool.and_eq_true]
      constructor
      · exact all_weaken (fun d hd => by simp [isWs_of_digit hd])
          (all_takeWhile Char.isDigit (cs))
      · simp only [Bool.and_eq_true, Bool.or_eq_true] at h
        rcases h.2 with hnil | hdot
        · rw [List.isEmpty_iff] at hnil
          rw [hnil]
          rfl
        · cases hrest : cs.dropWhile Char.isDigit with
          | nil => rfl
          | cons r rs =>
            rw [hrest] at hdot
            simp only [List.head?_cons, Option.some.injEq, List.tail_cons,
              Bool.and_eq_true, decide_eq_true_eq] at hdot
            obtain ⟨⟨hr, _⟩, hall⟩ := hdot
            subst hr
            simp only [List.all_cons, Bool.and_eq_true]
            exact ⟨by decide, all_weaken (fun d hd => by simp [isWs_of_digit hd]) hall⟩
    · have hhead : (c :: cs).head? = some '-' ↔ False := by
        simp [hC]
      have hbody : matchesNumber (c :: cs) =
          (!((c :: cs).takeWhile Char.isDigit).isEmpty &&
            (((c :: cs).dropWhile Char.isDigit).isEmpty ||
              (((c :: cs).dropWhile Char.isDigit).head? = some '.' &&
                !((c :: cs).dropWhile Char.isDigit).tail.isEmpty &&
                ((c :: cs).dropWhile Char.isDigit).tail.all Char.isDigit))) := by
        simp only [matchesNumber]
        rw [if_neg (by simp [hC])]
      rw [hbody] at h
      have hdig : c.isDigit = true := by
        by_contra hnd
        rw [Bool.not_eq_true] at hnd
        simp [List.takeWhile_cons, hnd] at h
      refine ⟨⟨c, cs, rfl, Or.inr hdig⟩, ?_⟩
      simp only [List.all_cons, Bool.and_eq_true]
      refine ⟨by simp [isWs_of_digit hdig], ?_⟩
      simp only [List.takeWhile_cons, List.dropWhile_cons, hdig, if_true, ite_true] at h
      have hsplit : cs.takeWhile Char.isDigit ++ cs.dropWhile Char.isDigit = cs :=
        List.takeWhile_append_dropWhile Char.isDigit cs
      rw [← hsplit, List.all_append]
      simp only [Bool.and_eq_true]
      constructor
      · exact all_weaken (fun d hd => by simp [isWs_of_digit hd])
          (all_takeWhile Char.isDigit (cs))
      · simp only [Bool.and_eq_true, Bool.or_eq_true] at h
        rcases h.2 with hnil | hdot
        · rw [List.isEmpty_iff] at hnil
          rw [hnil]
          rfl
        · cases hrest : cs.dropWhile Char.isDigit with
          | nil => rfl
          | cons r rs =>
            rw [hrest] at hdot
            simp only [List.head?_cons, Option.some.injEq, List.tail_cons,
              Bool.and_eq_true, decide_eq_true_eq] at hdot
            obtain ⟨⟨hr, _⟩, hall⟩ := hdot
            subst hr
            simp only [List.all_cons, Bool.and_eq_true]
            exact ⟨by decide, all_weaken (fun d hd => by simp [isWs_of_digit hd]) hall⟩

end Cssu

namespace Cssu

/-- A fragment whose first character differs from the pattern's first
character does not start with the pattern. -/
theorem startsWith_false_of_head (c : Char) (rest : List Char) (p : Char)
    (ps : List Char) (h : ¬ p = c) :
    startsWithJS (String.mk (c :: rest)) (String.mk (p :: ps)) = false := by
  show (p :: ps).isPrefixOf (c :: rest) = false
  unfold List.isPrefixOf
  simp [h]

/-- C9 core: a text matching the numeric grammar parses to the numeric
literal given by the `parseFloat` model (the function-call prefixes cannot
match because the text starts with a sign or digit, and trimming is the
identity because the grammar admits no whitespace). -/
theorem parseExpression_numeric (jp : String → Option Value) (n : Nat)
    (t : String) (h : matchesNumber t.toList = true) :
    parseExpression jp (n + 1) t = .literal (.num (parseFloatQ t.toList)) := by
  obtain ⟨⟨c, rest, hl, hc⟩, hws⟩ := matchesNumber_inv t.toList h
  cases t with
  | mk l =>
    have hl' : l = c :: rest := hl
    subst hl'
    have htrim : trimJS (String.mk (c :: rest)) = String.mk (c :: rest) :=
      trimJS_of_no_ws _ hws
    have hne : ∀ p : Char, p.isDigit = false → ¬ p = '-' → ¬ p = c := by
      intro p hp hpd he
      rcases hc with hc | hc
      · exact hpd (he.trans hc)
      · subst he
        rw [hp] at hc
        exact Bool.false_ne_true hc
    have hsql : startsWithJS (String.mk (c :: rest)) ("sql(") = false := by
      show startsWithJS (String.mk (c :: rest)) (String.mk ['s', 'q', 'l', '(']) = false
      exact startsWith_false_of_head c rest 's' _ (hne 's' (by decide) (by decide))
    have hparam : startsWithJS (String.mk (c :: rest)) ("param(") = false := by
      show startsWithJS (String.mk (c :: rest)) (String.mk ['p', 'a', 'r', 'a', 'm', '(']) = false
      exact startsWith_false_of_head c rest 'p' _ (hne 'p' (by decide) (by decide))
    have hquery : startsWithJS (String.mk (c :: rest)) ("query(") = false := by
      show startsWithJS (String.mk (c :: rest)) (String.mk ['q', 'u', 'e', 'r', 'y', '(']) = false
      exact startsWith_false_of_head c rest 'q' _ (hne 'q' (by decide) (by decide))
    have hbody : startsWithJS (String.mk (c :: rest)) ("body(") = false := by
      show startsWithJS (String.mk (c :: rest)) (String.mk ['b', 'o', 'd', 'y', '(']) = false
      exact startsWith_false_of_head c rest 'b' _ (hne 'b' (by decide) (by decide))
    have hheader : startsWithJS (String.mk (c :: rest)) ("header(") = false := by
      show startsWithJS (String.mk (c :: rest)) (String.mk ['h', 'e', 'a', 'd', 'e', 'r', '(']) = false
      exact startsWith_false_of_head c rest 'h' _ (hne 'h' (by decide) (by decide))
    have hvar : startsWithJS (String.mk (c :: rest)) ("var(") = false := by
      show startsWithJS (String.mk (c :: rest)) (String.mk ['v', 'a', 'r', '(']) = false
      exact startsWith_false_of_head c rest 'v' _ (hne 'v' (by decide) (by decide))
    have hif : startsWithJS (String.mk (c :: rest)) ("if(") = false := by
      show startsWithJS (String.mk (c :: rest)) (String.mk ['i', 'f', '(']) = false
      exact startsWith_false_of_head c rest 'i' _ (hne 'i' (by decide) (by decide))
    simp only [parseExpression, htrim, hsql, hparam, hquery, hbody, hheader, hvar, hif,
      Bool.false_eq_true, if_false, ite_false]
    have hm : matchesNumber (String.mk (c :: rest)).toList = true := h
    rw [if_pos hm]

end Cssu

namespace Cssu

/-- C9: parsing a literal text and evaluating the result reproduces the
exact typed value — a numeric-grammar text yields its `parseFloat` value
as a number (in any environment), and the exact texts `true`, `false` and
`null` yield the corresponding boolean and null values. -/
theorem parse_literal_roundtrip (jp : String → Option Value) (n : Nat)
    (db : Option DbConn) (ctx : RequestContext) :
    (∀ t : String, matchesNumber t.toList = true →
      parseExpression jp (n + 1) t = .literal (.num (parseFloatQ t.toList))
      ∧ evaluateExpression db (parseExpression jp (n + 1) t) ctx =
          .num (parseFloatQ t.toList))
    ∧ (parseExpression jp (n + 1) ("true") = .literal (.bool true)
      ∧ evaluateExpression db (parseExpression jp (n + 1) ("true")) ctx = .bool true)
    ∧ (parseExpression jp (n + 1) ("false") = .literal (.bool false)
      ∧ evaluateExpression db (parseExpression jp (n + 1) ("false")) ctx = .bool false)
    ∧ (parseExpression jp (n + 1) ("null") = .literal .null
      ∧ evaluateExpression db (parseExpression jp (n + 1) ("null")) ctx = .null) := by
  have htrue : parseExpression jp (n + 1) ("true") = .literal (.bool true) := rfl
  have hfalse : parseExpression jp (n + 1) ("false") = .literal (.bool false) := rfl
  have hnull : parseExpression jp (n + 1) ("null") = .literal .null := rfl
  refine ⟨?_, ⟨htrue, ?_⟩, ⟨hfalse, ?_⟩, ⟨hnull, ?_⟩⟩
  · intro t ht
    have hp := parseExpression_numeric jp n t ht
    refine ⟨hp, ?_⟩
    rw [hp]
    simp [evaluateExpression]
  · rw [htrue]
    simp [evaluateExpression]
  · rw [hfalse]
    simp [evaluateExpression]
  · rw [hnull]
    simp [evaluateExpression]

/-- Witness for C9: the text -12.5 passes the numeric grammar and
round-trips to the rational -12.5 (= -25/2). -/
theorem parse_literal_roundtrip_witness :
    matchesNumber ("-12.5").toList = true
    ∧ evaluateExpression none (parseExpression noJson 1 ("-12.5")) emptyCtx =
        .num (-25 / 2) := by
  refine ⟨by decide, ?_⟩
  have h := ((parse_literal_roundtrip noJson 0 none emptyCtx).1 ("-12.5") (by decide)).2
  rw [h]
  have hq : parseFloatQ ("-12.5").toList = -25 / 2 := by
    have h1 : ("-12.5").toList = ['-', '1', '2', '.', '5'] := rfl
    rw [h1]
    have h2 : List.takeWhile Char.isDigit ['1', '2', '.', '5'] = ['1', '2'] := rfl
    have h3 : List.dropWhile Char.isDigit ['1', '2', '.', '5'] = ['.', '5'] := rfl
    have h4 : List.takeWhile Char.isDigit ['5'] = ['5'] := rfl
    have hd1 : (digitsToNat ['1', '2'] : ℚ) = 12 := by
      rw [show digitsToNat ['1', '2'] = 12 from by decide]
      norm_num
    have hd2 : (digitsToNat ['5'] : ℚ) = 5 := by
      rw [show digitsToNat ['5'] = 5 from by decide]
      norm_num
    simp only [parseFloatQ]
    norm_num [h2, h3, h4, List.head?_cons, List.tail_cons, List.length_cons,
      List.length_nil, hd1, hd2]
  rw [hq]

end Cssu

namespace Cssu

/-! ## C10: evaluation never modifies the request context

The source receives `ctx` by reference, so mutation is representable.
The state-threaded variants below are the statement-by-statement
translation in which every sub-evaluation passes the context on; the
theorems show the final context is the initial one and the produced value
agrees with the pure evaluator, i.e. no evaluation path writes to the
params, query, body, headers or variables maps. -/

mutual

/-- State-threaded `evaluateCondition`. -/
def evaluateConditionS : Condition → RequestContext → Bool × RequestContext
  | .truthy n, ctx =>
    (match ctx.getVar n with
     | .null => false
     | .undefinedV => false
     | .bool b => b
     | .num q => q != 0
     | .str s => s.toList.length > 0
     | .arr l => l.length > 0
     | .obj kvs => kvs.length > 0, ctx)
  | .equals n v, ctx => (strictEq (ctx.getVar n) v, ctx)
  | .notEquals n v, ctx => (!strictEq (ctx.getVar n) v, ctx)
  | .greaterThan n v, ctx =>
    (match ctx.getVar n, v with
     | .num a, .n b => a > b
     | _, _ => false, ctx)
  | .lessThan n v, ctx =>
    (match ctx.getVar n, v with
     | .num a, .n b => a < b
     | _, _ => false, ctx)
  | .greaterOrEqual n v, ctx =>
    (match ctx.getVar n, v with
     | .num a, .n b => a ≥ b
     | _, _ => false, ctx)
  | .lessOrEqual n v, ctx =>
    (match ctx.getVar n, v with
     | .num a, .n b => a ≤ b
     | _, _ => false, ctx)
  | .and cs, ctx => condAllS cs ctx
  | .or cs, ctx => condAnyS cs ctx
  | .not c, ctx =>
    let r := evaluateConditionS c ctx
    (!r.1, r.2)

/-- State-threaded `every` over conditions (short-circuiting). -/
def condAllS : List Condition → RequestContext → Bool × RequestContext
  | [], ctx => (true, ctx)
  | c :: cs, ctx =>
    let r := evaluateConditionS c ctx
    if r.1 then condAllS cs r.2 else (false, r.2)

/-- State-threaded `some` over conditions (short-circuiting). -/
def condAnyS : List Condition → RequestContext → Bool × RequestContext
  | [], ctx => (false, ctx)
  | c :: cs, ctx =>
    let r := evaluateConditionS c ctx
    if r.1 then (true, r.2) else condAnyS cs r.2

end

mutual

/-- State-threaded `evaluateExpression`. -/
def evaluateExpressionS (db : Option DbConn) : Expression → RequestContext → Value × RequestContext
  | .literal v, ctx => (v, ctx)
  | .var n, ctx => (ctx.getVar n, ctx)
  | .param n, ctx => (getStrMap ctx.params n, ctx)
  | .queryRef n, ctx => (getStrMap ctx.query n, ctx)
  | .body n, ctx => (getBodyMap ctx.body n, ctx)
  | .header n, ctx => (getStrMap ctx.headers (toLowerJS n), ctx)
  | .sql q args, ctx => evaluateSqlS db q args ctx
  | .ifE branches elseValue, ctx => evaluateIfS db branches elseValue ctx
  | .json v, ctx => (v, ctx)
  | .html s, ctx => (.str s, ctx)
  | .concat parts, ctx =>
    let r := evalArgsS db parts ctx
    (.str (joinEmpty r.1), r.2)
termination_by e _ => (sizeOf e, 0)

/-- State-threaded argument-list evaluation. -/
def evalArgsS (db : Option DbConn) : List Expression → RequestContext → List Value × RequestContext
  | [], ctx => ([], ctx)
  | e :: es, ctx =>
    let r := evaluateExpressionS db e ctx
    let rs := evalArgsS db es r.2
    (r.1 :: rs.1, rs.2)
termination_by l _ => (sizeOf l, 0)

/-- State-threaded `evaluateSql`. -/
def evaluateSqlS (db : Option DbConn) (query : String) (args : List Expression)
    (ctx : RequestContext) : Value × RequestContext :=
  match db with
  | none => (errObj ("Database not configured"), ctx)
  | some conn =>
    let r := evalArgsS db args ctx
    (match sqlExec conn query args.length r.1 with
     | .ok v => v
     | .error m => errObj m, r.2)
termination_by (sizeOf args, 1)

/-- State-threaded `evaluateIf`. -/
def evaluateIfS (db : Option DbConn) : List (Condition × Expression) →
    Option Expression → RequestContext → Value × RequestContext
  | [], none, ctx => (.null, ctx)
  | [], some e, ctx => evaluateExpressionS db e ctx
  | (c, v) :: bs, elseValue, ctx =>
    let r := evaluateConditionS c ctx
    if r.1 then evaluateExpressionS db v r.2
    else evaluateIfS db bs elseValue r.2
termination_by branches elseValue _ => (sizeOf branches + sizeOf elseValue, 1)

end

mutual

/-- Conditions evaluate to the pure result and return the context they
were given, unchanged. -/
theorem evaluateConditionS_spec : ∀ (c : Condition) (ctx : RequestContext),
    evaluateConditionS c ctx = (evaluateCondition c ctx, ctx)
  | .truthy n, ctx => by simp [evaluateConditionS, evaluateCondition]
  | .equals n v, ctx => by simp [evaluateConditionS, evaluateCondition]
  | .notEquals n v, ctx => by simp [evaluateConditionS, evaluateCondition]
  | .greaterThan n v, ctx => by simp [evaluateConditionS, evaluateCondition]
  | .lessThan n v, ctx => by simp [evaluateConditionS, evaluateCondition]
  | .greaterOrEqual n v, ctx => by simp [evaluateConditionS, evaluateCondition]
  | .lessOrEqual n v, ctx => by simp [evaluateConditionS, evaluateCondition]
  | .and cs, ctx => by
    simp [evaluateConditionS, evaluateCondition, condAllS_spec cs ctx]
  | .or cs, ctx => by
    simp [evaluateConditionS, evaluateCondition, condAnyS_spec cs ctx]
  | .not c, ctx => by
    simp [evaluateConditionS, evaluateCondition, evaluateConditionS_spec c ctx]

/-- `condAllS` agrees with `condAll` and preserves the context. -/
theorem condAllS_spec : ∀ (cs : List Condition) (ctx : RequestContext),
    condAllS cs ctx = (condAll cs ctx, ctx)
  | [], ctx => by simp [condAllS, condAll]
  | c :: cs, ctx => by
    have h1 := evaluateConditionS_spec c ctx
    have h2 := condAllS_spec cs ctx
    by_cases hb : evaluateCondition c ctx <;>
      simp [condAllS, condAll, h1, h2, hb]

/-- `condAnyS` agrees with `condAny` and preserves the context. -/
theorem condAnyS_spec : ∀ (cs : List Condition) (ctx : RequestContext),
    condAnyS cs ctx = (condAny cs ctx, ctx)
  | [], ctx => by simp [condAnyS, condAny]
  | c :: cs, ctx => by
    have h1 := evaluateConditionS_spec c ctx
    have h2 := condAnyS_spec cs ctx
    by_cases hb : evaluateCondition c ctx <;>
      simp [condAnyS, condAny, h1, h2, hb]

end

mutual

/-- Expressions evaluate to the pure result and return the context they
were given, unchanged. -/
theorem evaluateExpressionS_spec (db : Option DbConn) :
    ∀ (e : Expression) (ctx : RequestContext),
      evaluateExpressionS db e ctx = (evaluateExpression db e ctx, ctx)
  | .literal v, ctx => by simp [evaluateExpressionS, evaluateExpression]
  | .var n, ctx => by simp [evaluateExpressionS, evaluateExpression]
  | .param n, ctx => by simp [evaluateExpressionS, evaluateExpression]
  | .queryRef n, ctx => by simp [evaluateExpressionS, evaluateExpression]
  | .body n, ctx => by simp [evaluateExpressionS, evaluateExpression]
  | .header n, ctx => by simp [evaluateExpressionS, evaluateExpression]
  | .sql q args, ctx => by
    simp [evaluateExpressionS, evaluateExpression, evaluateSqlS_spec db q args ctx]
  | .ifE branches elseValue, ctx => by
    simp [evaluateExpressionS, evaluateExpression,
      evaluateIfS_spec db branches elseValue ctx]
  | .json v, ctx => by simp [evaluateExpressionS, evaluateExpression]
  | .html s, ctx => by simp [evaluateExpressionS, evaluateExpression]
  | .concat parts, ctx => by
    simp [evaluateExpressionS, evaluateExpression, evalArgsS_spec db parts ctx]
termination_by e _ => (sizeOf e, 0)

/-- Argument-list evaluation agrees with the pure version and preserves
the context. -/
theorem evalArgsS_spec (db : Option DbConn) :
    ∀ (l : List Expression) (ctx : RequestContext),
      evalArgsS db l ctx = (evalArgs db l ctx, ctx)
  | [], ctx => by simp [evalArgsS, evalArgs]
  | e :: es, ctx => by
    simp [evalArgsS, evalArgs, evaluateExpressionS_spec db e ctx,
      evalArgsS_spec db es ctx]
termination_by l _ => (sizeOf l, 0)

/-- `evaluateSqlS` agrees with `evaluateSql` and preserves the context. -/
theorem evaluateSqlS_spec (db : Option DbConn) (q : String)
    (args : List Expression) (ctx : RequestContext) :
    evaluateSqlS db q args ctx = (evaluateSql db q args ctx, ctx) := by
  cases db with
  | none => simp [evaluateSqlS, evaluateSql]
  | some conn =>
    simp [evaluateSqlS, evaluateSql, evalArgsS_spec (some conn) args ctx]
termination_by (sizeOf args, 1)

/-- `evaluateIfS` agrees with `evaluateIf` and preserves the context. -/
theorem evaluateIfS_spec (db : Option DbConn) :
    ∀ (branches : List (Condition × Expression)) (elseValue : Option Expression)
      (ctx : RequestContext),
      evaluateIfS db branches elseValue ctx =
        (evaluateIf db branches elseValue ctx, ctx)
  | [], none, ctx => by simp [evaluateIfS, evaluateIf]
  | [], some e, ctx => by
    simp [evaluateIfS, evaluateIf, evaluateExpressionS_spec db e ctx]
  | (c, v) :: bs, elseValue, ctx => by
    have hc := evaluateConditionS_spec c ctx
    by_cases hb : evaluateCondition c ctx
    · simp [evaluateIfS, evaluateIf, hc, hb, evaluateExpressionS_spec db v ctx]
    · simp [evaluateIfS, evaluateIf, hc, hb, evaluateIfS_spec db bs elseValue ctx]
termination_by branches elseValue _ => (sizeOf branches + sizeOf elseValue, 1)

end

/-- C10: evaluation has no effect on the request context.  In the
state-threaded rendering of the evaluator — where mutation of the
by-reference context would be visible — both expression and condition
evaluation return the context unchanged (all five maps included) and
produce the pure evaluator's value; the variables map is written only by
the route handler's assignment loop (`bindVars`), never from inside
evaluation. -/
theorem evaluation_preserves_context (db : Option DbConn) (e : Expression)
    (c : Condition) (ctx : RequestContext) :
    (evaluateExpressionS db e ctx).2 = ctx
    ∧ (evaluateExpressionS db e ctx).1 = evaluateExpression db e ctx
    ∧ (evaluateConditionS c ctx).2 = ctx
    ∧ (evaluateConditionS c ctx).1 = evaluateCondition c ctx := by
  have h1 := evaluateExpressionS_spec db e ctx
  have h2 := evaluateConditionS_spec c ctx
  exact ⟨by rw [h1], by rw [h1], by rw [h2], by rw [h2]⟩

end Cssu
